import Mathlib

/-!
Verification of the check-orchestration core of the Vatican/Colosseum
ticket-monitoring bot.

The definitions below are a shallow embedding of the Python source:

* `backend/monitors/tasks.py` — proxy selection (`get_proxy_str`),
  proxy reputation (`report_proxy_status`), the per-task notification
  logic of `run_smart_vatican_monitor` / `run_god_tier_vatican_monitor`,
  the content-hash deduplication of `run_shared_vatican_monitor`, and
  the grouping/dispatch pass of `orchestrate_all_tasks`;
* `worker_vatican/god_tier_monitor_v2.py` — session-cache loading,
  live session validation and the control flow of `check_availability`.

Timestamps are modelled as integers (seconds); Django querysets as lists
in an arbitrary order (quantified over in the theorems); the Redis cache
entries as explicit `Option` inputs; network and browser results as
oracle parameters.
-/

/-! ## Proxy records (`backend/monitors/models.py`, class `Proxy`) -/

/-- A proxy endpoint record.  Mirrors the Django model `Proxy`:
`ip_port`, `username`, `password`, `is_active`, `fail_count`,
`consecutive_failures`, `cooldown_until`, `last_used`.
`cooldown_until` and `last_used` are timestamps in seconds, `none` = NULL. -/
structure Proxy where
  ip_port : String
  username : Option String := none
  password : Option String := none
  is_active : Bool := true
  fail_count : Nat := 0
  consecutive_failures : Nat := 0
  cooldown_until : Option Int := none
  last_used : Option Int := none
deriving DecidableEq, Repr

/-- Embedding of `report_proxy_status(proxy_obj, success)` from
`backend/monitors/tasks.py` (lines 93-122).  `now` is the value of
`timezone.now()` at the call, in seconds.  On success the counters are
reset only when `fail_count > 0` (otherwise the record is left as is);
on failure both counters are incremented and the cascaded thresholds
(>=3 → 5 min, >=5 → 30 min, >=10 → 120 min) pick the cooldown; when the
resulting `cooldown_mins` is 0 the old `cooldown_until` is kept. -/
def report_proxy_status (p : Proxy) (success : Bool) (now : Int) : Proxy :=
  if success then
    if p.fail_count > 0 then
      { p with fail_count := 0, consecutive_failures := 0, cooldown_until := none }
    else p
  else
    let p1 : Proxy :=
      { p with fail_count := p.fail_count + 1,
               consecutive_failures := p.consecutive_failures + 1 }
    let cooldown_mins : Nat := 0
    let cooldown_mins := if p1.consecutive_failures ≥ 3 then 5 else cooldown_mins
    let cooldown_mins := if p1.consecutive_failures ≥ 5 then 30 else cooldown_mins
    let cooldown_mins := if p1.consecutive_failures ≥ 10 then 120 else cooldown_mins
    if cooldown_mins > 0 then
      { p1 with cooldown_until := some (now + (cooldown_mins : Int) * 60) }
    else p1

/-- States of a proxy record reachable from a freshly configured record
(`fail_count = 0`, `consecutive_failures = 0`, `cooldown_until = NULL`,
the Django field defaults) by any sequence of `report_proxy_status`
calls — the only code in the core that mutates the reputation fields. -/
inductive ProxyReachable : Proxy → Prop
  | init (p : Proxy) (h1 : p.fail_count = 0) (h2 : p.consecutive_failures = 0)
      (h3 : p.cooldown_until = none) : ProxyReachable p
  | step (p : Proxy) (success : Bool) (now : Int) (h : ProxyReachable p) :
      ProxyReachable (report_proxy_status p success now)

/-- Invariant of reachable proxy records: the two failure counters move in
lock step, and a non-null cooldown implies at least 3 consecutive failures. -/
theorem proxyReachable_invariant (p : Proxy) (h : ProxyReachable p) :
    p.fail_count = p.consecutive_failures ∧
      (p.cooldown_until ≠ none → p.consecutive_failures ≥ 3) := by
  induction h with
  | init p h1 h2 h3 =>
    refine ⟨by rw [h1, h2], fun hc => absurd h3 hc⟩
  | step p success now _ ih =>
    obtain ⟨ihEq, ihCd⟩ := ih
    unfold report_proxy_status
    by_cases hs : success = true
    · simp only [hs, if_true]
      by_cases hf : p.fail_count > 0
      · simp [hf]
      · simp only [hf, if_false]
        have h0 : p.fail_count = 0 := Nat.eq_zero_of_not_pos hf
        refine ⟨ihEq, fun hc => ihCd hc⟩
    · have hs' : success = false := by simpa using hs
      subst hs'
      simp only [Bool.false_eq_true, if_false]
      by_cases h10 : p.consecutive_failures + 1 ≥ 10
      · have h3 : p.consecutive_failures + 1 ≥ 3 := by omega
        have h5 : p.consecutive_failures + 1 ≥ 5 := by omega
        simp [h3, h5, h10, ihEq]
      · by_cases h5 : p.consecutive_failures + 1 ≥ 5
        · have h3 : p.consecutive_failures + 1 ≥ 3 := by omega
          simp [h3, h5, h10, ihEq]
        · by_cases h3 : p.consecutive_failures + 1 ≥ 3
          · simp [h3, h5, h10, ihEq]
          · simp only [h3, h5, h10, if_false, ge_iff_le]
            refine ⟨by simp [ihEq], fun hc => ?_⟩
            exact absurd (ihCd hc) (by omega)

/-- C3.  For every reachable proxy record, a failure report increments both
counters and installs the step-function cooldown (none below 3 consecutive
failures, 5 minutes at ≥3, 30 at ≥5, 120 at ≥10, measured from `now`), and
a success report resets both counters to zero and the cooldown to null. -/
theorem report_proxy_status_spec (p : Proxy) (now : Int) (h : ProxyReachable p) :
    ((report_proxy_status p false now).fail_count = p.fail_count + 1 ∧
      (report_proxy_status p false now).consecutive_failures =
        p.consecutive_failures + 1 ∧
      (report_proxy_status p false now).cooldown_until =
        (if p.consecutive_failures + 1 ≥ 10 then some (now + 120 * 60)
         else if p.consecutive_failures + 1 ≥ 5 then some (now + 30 * 60)
         else if p.consecutive_failures + 1 ≥ 3 then some (now + 5 * 60)
         else none)) ∧
    (report_proxy_status p true now).fail_count = 0 ∧
    (report_proxy_status p true now).consecutive_failures = 0 ∧
    (report_proxy_status p true now).cooldown_until = none := by
  obtain ⟨ihEq, ihCd⟩ := proxyReachable_invariant p h
  constructor
  · unfold report_proxy_status
    simp only [Bool.false_eq_true, if_false]
    by_cases h10 : p.consecutive_failures + 1 ≥ 10
    · have h3 : p.consecutive_failures + 1 ≥ 3 := by omega
      have h5 : p.consecutive_failures + 1 ≥ 5 := by omega
      simp [h3, h5, h10]
    · by_cases h5 : p.consecutive_failures + 1 ≥ 5
      · have h3 : p.consecutive_failures + 1 ≥ 3 := by omega
        simp [h3, h5, h10]
      · by_cases h3 : p.consecutive_failures + 1 ≥ 3
        · simp [h3, h5, h10]
        · have hnone : p.cooldown_until = none := by
            by_contra hc
            exact absurd (ihCd hc) (by omega)
          simp [h3, h5, h10, hnone]
  · unfold report_proxy_status
    simp only [if_true]
    by_cases hf : p.fail_count > 0
    · simp [hf]
    · have h0 : p.fail_count = 0 := Nat.eq_zero_of_not_pos hf
      have hc0 : p.consecutive_failures = 0 := by omega
      have hnone : p.cooldown_until = none := by
        by_contra hc
        have := ihCd hc
        omega
      simp [hf, h0, hc0, hnone]

/-- A concrete proxy record as created by configuration load. -/
def proxyDemo : Proxy := { ip_port := "142.111.48.253:7030" }

/-- Witness for C3: the spec applied to the concrete record after two
recorded failures (a reachable state with 2 consecutive failures); the
third failure yields a 5-minute cooldown from the failure time. -/
theorem report_proxy_status_spec_witness :
    (report_proxy_status
      (report_proxy_status (report_proxy_status proxyDemo false 10) false 20)
      false 30).consecutive_failures = 3 ∧
    (report_proxy_status
      (report_proxy_status (report_proxy_status proxyDemo false 10) false 20)
      false 30).cooldown_until = some (30 + 5 * 60) := by
  have hreach : ProxyReachable
      (report_proxy_status (report_proxy_status proxyDemo false 10) false 20) :=
    ProxyReachable.step _ false 20
      (ProxyReachable.step _ false 10 (ProxyReachable.init proxyDemo rfl rfl rfl))
  have h := report_proxy_status_spec
    (report_proxy_status (report_proxy_status proxyDemo false 10) false 20) 30 hreach
  obtain ⟨⟨_, h2, h3⟩, _⟩ := h
  constructor
  · rw [h2]; rfl
  · rw [h3]; rfl

/-! ## Proxy selection (`get_proxy_str`, `backend/monitors/tasks.py` 50-91) -/

/-- `listIsPrefix pat l` holds when `pat` is a prefix of `l`. -/
def listIsPrefix : List Char → List Char → Bool
  | [], _ => true
  | _ :: _, [] => false
  | a :: as, b :: bs => a == b && listIsPrefix as bs

/-- `containsSubAux pat l`: `pat` occurs as a contiguous sublist of `l`
(Python's `pat in s` on strings, via their character lists). -/
def containsSubAux (pat : List Char) : List Char → Bool
  | [] => listIsPrefix pat []
  | b :: bs => listIsPrefix pat (b :: bs) || containsSubAux pat bs

/-- Case-sensitive substring test, embedding Python's `pat in s`. -/
def strContains (s pat : String) : Bool :=
  containsSubAux pat.data s.data

/-- Case-insensitive substring test, embedding Django's
`ip_port__icontains='oxylabs'` / Python's `'oxylabs' in s.lower()`. -/
def icontainsOxylabs (s : String) : Bool :=
  containsSubAux "oxylabs".data (s.data.map Char.toLower)

/-- The `valid_proxies` queryset filter: active and either no cooldown or an
expired one (`cooldown_until__isnull=True | cooldown_until__lte=now`). -/
def eligibleProxy (now : Int) (p : Proxy) : Bool :=
  p.is_active &&
    (match p.cooldown_until with
     | none => true
     | some t => decide (t ≤ now))

/-- Sort key of `order_by('cooldown_until')` on the PostgreSQL backend used
by this project (the migrations are PL/pgSQL): ascending with NULLs last. -/
def cooldownKey (p : Proxy) : Int × Int :=
  match p.cooldown_until with
  | some t => (0, t)
  | none => (1, 0)

/-- Strict lexicographic comparison on the cooldown sort key. -/
def keyLt (a b : Int × Int) : Bool :=
  a.1 < b.1 || (a.1 == b.1 && a.2 < b.2)

/-- One fold step towards the first minimal row. -/
def pickMin (acc : Option Proxy) (p : Proxy) : Option Proxy :=
  match acc with
  | none => some p
  | some q => if keyLt (cooldownKey p) (cooldownKey q) then some p else some q

/-- `order_by('cooldown_until').first()`: the first row minimal in the
NULLs-last ascending order (ties broken by row order). -/
def firstByCooldown (l : List Proxy) : Option Proxy :=
  l.foldl pickMin none

/-- Embedding of the selection performed by `get_proxy_str(site)`.  The
queryset is modelled as the list `proxies`; `order_by('?').first()` (a
uniformly random eligible row) is modelled as the head of the filtered
list, with the theorems quantifying over every ordering of `proxies`, so
every possible random draw is covered.  Only the selected record is
returned; the URL formatting and the `last_used` write that follow the
selection do not affect which record is chosen. -/
def get_proxy_str (site : String) (proxies : List Proxy) (now : Int) :
    Option Proxy :=
  let valid := proxies.filter (eligibleProxy now)
  let chosen :=
    if site = "colosseum" then
      (valid.filter (fun p => icontainsOxylabs p.ip_port)).head?
    else
      match (valid.filter (fun p => icontainsOxylabs p.ip_port)).head? with
      | some p => some p
      | none => valid.head?
  match chosen with
  | some p => some p
  | none => firstByCooldown (proxies.filter (fun p => p.is_active))

/-- `keyLt` unfolded to a linear-arithmetic statement. -/
theorem keyLt_iff (a b : Int × Int) :
    keyLt a b = true ↔ (a.1 < b.1 ∨ (a.1 = b.1 ∧ a.2 < b.2)) := by
  simp [keyLt]

/-- `keyLt` never relates a key to itself. -/
theorem keyLt_self (a : Int × Int) : keyLt a a = false := by
  simp [keyLt]

/-- Chaining two non-strict comparisons. -/
theorem keyLt_false_trans {a b c : Int × Int}
    (h1 : keyLt a b = false) (h2 : keyLt b c = false) : keyLt a c = false := by
  rw [Bool.eq_false_iff, Ne, keyLt_iff] at h1 h2 ⊢
  omega

/-- A strictly larger key stays above anything below the smaller one. -/
theorem keyLt_false_of_lt {a b c : Int × Int}
    (h1 : keyLt a b = true) (h2 : keyLt a c = false) : keyLt b c = false := by
  rw [keyLt_iff] at h1
  rw [Bool.eq_false_iff, Ne, keyLt_iff] at h2 ⊢
  omega

/-- Folding `pickMin` yields the first row minimal in `keyLt` order. -/
theorem foldl_pickMin_spec (l : List Proxy) :
    ∀ acc : Option Proxy,
      (l.foldl pickMin acc = none → acc = none ∧ l = []) ∧
      ∀ r, l.foldl pickMin acc = some r →
        (acc = some r ∨ r ∈ l) ∧
        (∀ q ∈ l, keyLt (cooldownKey q) (cooldownKey r) = false) ∧
        (∀ a, acc = some a → keyLt (cooldownKey a) (cooldownKey r) = false) := by
  induction l with
  | nil =>
    intro acc
    refine ⟨fun h => ⟨h, rfl⟩, fun r hr => ?_⟩
    simp only [List.foldl_nil] at hr
    refine ⟨Or.inl hr, by simp, fun a ha => ?_⟩
    rw [hr] at ha
    obtain rfl := Option.some.inj ha
    exact keyLt_self _
  | cons p l ih =>
    intro acc
    have hstep : (p :: l).foldl pickMin acc = l.foldl pickMin (pickMin acc p) :=
      List.foldl_cons _ _
    constructor
    · intro h
      rw [hstep] at h
      have hnn := ((ih (pickMin acc p)).1 h).1
      exfalso
      cases hacc : acc with
      | none => rw [hacc] at hnn; simp [pickMin] at hnn
      | some q =>
        rw [hacc] at hnn
        by_cases hlt : keyLt (cooldownKey p) (cooldownKey q) = true
        · simp [pickMin, hlt] at hnn
        · simp [pickMin, Bool.eq_false_iff.mpr hlt] at hnn
    · intro r hr
      rw [hstep] at hr
      obtain ⟨hmem, hmin, hacc'⟩ := (ih (pickMin acc p)).2 r hr
      cases haccv : acc with
      | none =>
        have hpick : pickMin acc p = some p := by rw [haccv]; rfl
        have hpr : keyLt (cooldownKey p) (cooldownKey r) = false := hacc' p hpick
        refine ⟨?_, ?_, fun a ha => ?_⟩
        · cases hmem with
          | inl h2 =>
            rw [hpick] at h2
            obtain rfl := Option.some.inj h2
            exact Or.inr (List.mem_cons_self _ _)
          | inr hl => exact Or.inr (List.mem_cons_of_mem _ hl)
        · intro q hq
          cases List.mem_cons.mp hq with
          | inl he => rw [he]; exact hpr
          | inr hl => exact hmin q hl
        · exact Option.noConfusion ha
      | some q0 =>
        by_cases hlt : keyLt (cooldownKey p) (cooldownKey q0) = true
        · have hpick : pickMin acc p = some p := by
            rw [haccv]; simp [pickMin, hlt]
          have hpr : keyLt (cooldownKey p) (cooldownKey r) = false := hacc' p hpick
          have hq0r : keyLt (cooldownKey q0) (cooldownKey r) = false :=
            keyLt_false_of_lt hlt hpr
          refine ⟨?_, ?_, fun a ha => ?_⟩
          · cases hmem with
            | inl h2 =>
              rw [hpick] at h2
              obtain rfl := Option.some.inj h2
              exact Or.inr (List.mem_cons_self _ _)
            | inr hl => exact Or.inr (List.mem_cons_of_mem _ hl)
          · intro q hq
            cases List.mem_cons.mp hq with
            | inl he => rw [he]; exact hpr
            | inr hl => exact hmin q hl
          · obtain rfl := Option.some.inj ha
            exact hq0r
        · have hltf : keyLt (cooldownKey p) (cooldownKey q0) = false :=
            Bool.eq_false_iff.mpr hlt
          have hpick : pickMin acc p = some q0 := by
            rw [haccv]; simp [pickMin, hltf]
          have hq0r : keyLt (cooldownKey q0) (cooldownKey r) = false :=
            hacc' q0 hpick
          have hpr : keyLt (cooldownKey p) (cooldownKey r) = false :=
            keyLt_false_trans hltf hq0r
          refine ⟨?_, ?_, fun a ha => ?_⟩
          · cases hmem with
            | inl h2 =>
              rw [hpick] at h2
              obtain rfl := Option.some.inj h2
              exact Or.inl rfl
            | inr hl => exact Or.inr (List.mem_cons_of_mem _ hl)
          · intro q hq
            cases List.mem_cons.mp hq with
            | inl he => rw [he]; exact hpr
            | inr hl => exact hmin q hl
          · obtain rfl := Option.some.inj ha
            exact hq0r

/-- The head of a list, if present, is a member. -/
theorem head?_mem {α : Type} {l : List α} {a : α} (h : l.head? = some a) :
    a ∈ l := by
  cases l with
  | nil => cases h
  | cons b bs =>
    simp only [List.head?_cons] at h
    obtain rfl := Option.some.inj h
    exact List.mem_cons_self _ _

/-- A nonempty list has a head. -/
theorem head?_of_ne_nil {α : Type} {l : List α} (h : l ≠ []) :
    ∃ a, l.head? = some a := by
  cases l with
  | nil => exact absurd rfl h
  | cons b bs => exact ⟨b, rfl⟩

/-- C9 counterexample.  Two active Colosseum-side proxies: `cexA` is
eligible (no cooldown, but no quality tag) and `cexB` is in the middle of
a cooldown.  The selection returns the cooled-down `cexB` — the emergency
`order_by('cooldown_until')` fallback (NULLs last) is taken as soon as no
tagged eligible endpoint exists, skipping the eligible untagged `cexA` —
refuting the claim that an eligible endpoint is always chosen when one
exists. -/
theorem colosseum_emergency_skips_eligible :
    get_proxy_str "colosseum" [{ ip_port := "1.2.3.4:8080" },
      { ip_port := "5.6.7.8:8080", cooldown_until := some 1000 }] 0 =
      some { ip_port := "5.6.7.8:8080", cooldown_until := some 1000 } ∧
    eligibleProxy 0 { ip_port := "5.6.7.8:8080", cooldown_until := some 1000 } =
      false ∧
    eligibleProxy 0 ({ ip_port := "1.2.3.4:8080"} : Proxy) = true := by
  refine ⟨?_, by decide, by decide⟩
  decide

/-- C9 (amended).  For Vatican-side requests the selection policy is as
claimed: a tagged (oxylabs) eligible endpoint if one exists, else any
eligible endpoint, else the active endpoint minimal in the NULLs-last
cooldown order (with every eligible endpoint exhausted this is the one
whose cooldown expires soonest), and `none` only when no active endpoint
exists.  For Colosseum-side requests the middle tier is skipped: when no
tagged eligible endpoint exists the emergency NULLs-last fallback is used
directly, even if untagged eligible endpoints exist. -/
theorem get_proxy_str_selection_spec (proxies : List Proxy) (now : Int) :
    (((proxies.filter (eligibleProxy now)).filter
          (fun p => icontainsOxylabs p.ip_port)) ≠ [] →
        ∃ p, get_proxy_str "vatican" proxies now = some p ∧
          p ∈ (proxies.filter (eligibleProxy now)).filter
            (fun p => icontainsOxylabs p.ip_port)) ∧
    (((proxies.filter (eligibleProxy now)).filter
          (fun p => icontainsOxylabs p.ip_port)) = [] →
        proxies.filter (eligibleProxy now) ≠ [] →
        ∃ p, get_proxy_str "vatican" proxies now = some p ∧
          p ∈ proxies.filter (eligibleProxy now)) ∧
    (proxies.filter (eligibleProxy now) = [] →
        proxies.filter (fun p => p.is_active) ≠ [] →
        ∃ p, get_proxy_str "vatican" proxies now = some p ∧
          p ∈ proxies.filter (fun p => p.is_active) ∧
          ∀ q ∈ proxies.filter (fun p => p.is_active),
            keyLt (cooldownKey q) (cooldownKey p) = false) ∧
    (proxies.filter (fun p => p.is_active) = [] →
        get_proxy_str "vatican" proxies now = none) ∧
    (((proxies.filter (eligibleProxy now)).filter
          (fun p => icontainsOxylabs p.ip_port)) ≠ [] →
        ∃ p, get_proxy_str "colosseum" proxies now = some p ∧
          p ∈ (proxies.filter (eligibleProxy now)).filter
            (fun p => icontainsOxylabs p.ip_port)) ∧
    (((proxies.filter (eligibleProxy now)).filter
          (fun p => icontainsOxylabs p.ip_port)) = [] →
        proxies.filter (fun p => p.is_active) ≠ [] →
        ∃ p, get_proxy_str "colosseum" proxies now = some p ∧
          p ∈ proxies.filter (fun p => p.is_active) ∧
          ∀ q ∈ proxies.filter (fun p => p.is_active),
            keyLt (cooldownKey q) (cooldownKey p) = false) ∧
    (proxies.filter (fun p => p.is_active) = [] →
        get_proxy_str "colosseum" proxies now = none) := by
  have hsub : proxies.filter (eligibleProxy now) = [] →
      ∀ site : String, get_proxy_str site proxies now =
        firstByCooldown (proxies.filter (fun p => p.is_active)) := by
    intro hv site
    unfold get_proxy_str
    rw [hv]
    by_cases hc : site = "colosseum" <;> simp [hc]
  have hfbc := foldl_pickMin_spec (proxies.filter (fun p => p.is_active)) none
  refine ⟨?_, ?_, ?_, ?_, ?_, ?_, ?_⟩
  · intro hne
    obtain ⟨p, hp⟩ := head?_of_ne_nil hne
    refine ⟨p, ?_, head?_mem hp⟩
    unfold get_proxy_str
    simp only [if_neg (by decide : ¬("vatican" : String) = "colosseum")]
    rw [hp]
  · intro hoxy hne
    obtain ⟨p, hp⟩ := head?_of_ne_nil hne
    refine ⟨p, ?_, head?_mem hp⟩
    unfold get_proxy_str
    simp only [if_neg (by decide : ¬("vatican" : String) = "colosseum")]
    rw [hoxy]
    simp only [List.head?_nil]
    rw [hp]
  · intro hv hact
    rw [hsub hv "vatican"]
    cases hfb : firstByCooldown (proxies.filter (fun p => p.is_active)) with
    | none =>
      obtain ⟨_, hnil⟩ := hfbc.1 hfb
      exact absurd hnil hact
    | some p =>
      obtain ⟨hmem, hmin, _⟩ := hfbc.2 p hfb
      refine ⟨p, rfl, ?_, hmin⟩
      cases hmem with
      | inl h => cases h
      | inr h => exact h
  · intro hact
    have hv : proxies.filter (eligibleProxy now) = [] := by
      rw [List.filter_eq_nil_iff] at hact ⊢
      intro p hp
      have := hact p hp
      simp only [eligibleProxy, Bool.and_eq_true] at *
      intro hcon
      exact this hcon.1
    rw [hsub hv "vatican", hact]
    rfl
  · intro hne
    obtain ⟨p, hp⟩ := head?_of_ne_nil hne
    refine ⟨p, ?_, head?_mem hp⟩
    unfold get_proxy_str
    simp only [if_pos rfl]
    rw [hp]
    simp
  · intro hoxy hact
    have hstep : get_proxy_str "colosseum" proxies now =
        firstByCooldown (proxies.filter (fun p => p.is_active)) := by
      unfold get_proxy_str
      simp only [if_pos rfl]
      rw [hoxy]
      rfl
    rw [hstep]
    cases hfb : firstByCooldown (proxies.filter (fun p => p.is_active)) with
    | none =>
      obtain ⟨_, hnil⟩ := hfbc.1 hfb
      exact absurd hnil hact
    | some p =>
      obtain ⟨hmem, hmin, _⟩ := hfbc.2 p hfb
      refine ⟨p, rfl, ?_, hmin⟩
      cases hmem with
      | inl h => cases h
      | inr h => exact h
  · intro hact
    have hstep : get_proxy_str "colosseum" proxies now =
        firstByCooldown (proxies.filter (fun p => p.is_active)) := by
      unfold get_proxy_str
      simp only [if_pos rfl]
      have hv : proxies.filter (eligibleProxy now) = [] := by
        rw [List.filter_eq_nil_iff] at hact ⊢
        intro p hp
        have := hact p hp
        simp only [eligibleProxy, Bool.and_eq_true] at *
        intro hcon
        exact this hcon.1
      rw [hv]
      rfl
    rw [hstep, hact]
    rfl

/-- Witness for C9 (amended): a single active, eligible, oxylabs-tagged
proxy is selected for the Vatican site. -/
theorem get_proxy_str_selection_spec_witness :
    ∃ p, get_proxy_str "vatican" [{ ip_port := "pr.oxylabs.io:7777" }] 0 =
        some p ∧
      p ∈ (([{ ip_port := "pr.oxylabs.io:7777" }] : List Proxy).filter
            (eligibleProxy 0)).filter (fun p => icontainsOxylabs p.ip_port) :=
  (get_proxy_str_selection_spec [{ ip_port := "pr.oxylabs.io:7777" }] 0).1
    (by decide)

/-! ## Per-task notification logic (`run_smart_vatican_monitor`,
`run_god_tier_vatican_monitor`, `backend/monitors/tasks.py`) -/

/-- The two states ever written to the Redis key
`ticket_state:{task_id}:{ticket_id}:{date}`: the strings
`'available'` and `'closed'`. -/
inductive TicketState where
  | available
  | closed
deriving DecidableEq, Repr

/-- Observable effects of one fan-out iteration for one subscriber task. -/
structure NotifyResult where
  /-- `send_telegram_signal` is reached for this task. -/
  alertSent : Bool
  /-- value written back to the `ticket_state:...` cache key -/
  newState : TicketState
  /-- the `alert_cooldown:...` key is (re)armed -/
  cooldownArmed : Bool
  /-- TTL of the armed cooldown key, in seconds -/
  cooldownSeconds : Nat
  /-- value written to `task.last_status` -/
  lastStatus : String
  /-- `task.last_checked` is set to the current time -/
  lastCheckedUpdated : Bool
deriving DecidableEq, Repr

/-- Embedding of the per-task body of `run_smart_vatican_monitor`
(lines 285-380).  Inputs: the check outcome (`status`, `slots`), the
cached previous state for the `(task, ticket, date)` key (`none` = key
absent, i.e. first observation), whether the `alert_cooldown` key is
present, and the task's `notification_mode`.  The delivery of the
Telegram message itself (chat-id resolution, HTTP POST) is the external
notification sink; `alertSent` records that the sending branch is
reached. -/
def smartNotify (status : String) (slots : List String)
    (prev : Option TicketState) (cooldownActive : Bool) (mode : String) :
    NotifyResult :=
  let is_now_available := decide (0 < slots.length)
  let was_previously_available := decide (prev = some TicketState.available)
  let is_first_check := decide (prev = none)
  let status_changed_to_open := is_now_available && !was_previously_available
  let new_state :=
    if is_now_available then TicketState.available else TicketState.closed
  let should_alert0 := status_changed_to_open && !is_first_check
  let should_alert := should_alert0 && !cooldownActive
  { alertSent := should_alert && !(mode == "silent")
    newState := new_state
    cooldownArmed := should_alert
    cooldownSeconds := if should_alert then 3600 else 0
    lastStatus := status
    lastCheckedUpdated := true }

/-- Embedding of the per-task body of `run_god_tier_vatican_monitor`
(lines 459-546): same inputs, with `status` derived from the
deduplicated slot list (`'available'` / `'sold_out'`), and the
`should_alert` decision written as the source's if/elif cascade. -/
def godTierNotify (slots : List String) (prev : Option TicketState)
    (cooldownActive : Bool) (mode : String) : NotifyResult :=
  let is_now_available := decide (0 < slots.length)
  let was_previously_available := decide (prev = some TicketState.available)
  let is_first_check := decide (prev = none)
  let status_changed_to_open := is_now_available && !was_previously_available
  let status := if is_now_available then "available" else "sold_out"
  let new_state :=
    if is_now_available then TicketState.available else TicketState.closed
  let should_alert :=
    if is_first_check && is_now_available then false
    else if status_changed_to_open && !is_first_check then
      if cooldownActive then false else true
    else false
  { alertSent := should_alert && !(mode == "silent")
    newState := new_state
    cooldownArmed := should_alert
    cooldownSeconds := if should_alert then 3600 else 0
    lastStatus := status
    lastCheckedUpdated := true }

/-- C2 counterexample.  A task with `notification_mode = 'silent'` whose
previous recorded state is Closed observes an Open outcome with no
cooldown active: every condition of the claim holds (the decision even
arms the 1-hour cooldown), yet no alert notification is sent — the
claim's "if and only if" omits the silent-policy gate
`task.notification_mode != 'silent'`. -/
theorem silent_task_open_transition_not_sent :
    (smartNotify "available" ["10:00"] (some TicketState.closed) false
        "silent").alertSent = false ∧
    (smartNotify "available" ["10:00"] (some TicketState.closed) false
        "silent").cooldownArmed = true ∧
    (godTierNotify ["10:00"] (some TicketState.closed) false
        "silent").alertSent = false := by
  decide

/-- C2 (amended).  In both monitors, an alert notification is sent iff
the previously recorded state for the `(task, ticket, date)` key is
Closed, the current observation is Open (at least one slot), no alert
cooldown is active for that key, and additionally the task's
notification policy is not `silent`; whenever the alert decision fires
(irrespective of the silent gate) the 1-hour (3600 s) cooldown is
armed. -/
theorem alert_sent_iff_closed_to_open (status : String) (slots : List String)
    (prev : Option TicketState) (cooldownActive : Bool) (mode : String) :
    ((smartNotify status slots prev cooldownActive mode).alertSent = true ↔
      (prev = some TicketState.closed ∧ slots ≠ [] ∧ cooldownActive = false ∧
        mode ≠ "silent")) ∧
    ((godTierNotify slots prev cooldownActive mode).alertSent = true ↔
      (prev = some TicketState.closed ∧ slots ≠ [] ∧ cooldownActive = false ∧
        mode ≠ "silent")) ∧
    ((smartNotify status slots prev cooldownActive mode).cooldownArmed = true ↔
      (prev = some TicketState.closed ∧ slots ≠ [] ∧ cooldownActive = false)) ∧
    ((smartNotify status slots prev cooldownActive mode).cooldownArmed = true →
      (smartNotify status slots prev cooldownActive mode).cooldownSeconds =
        3600) ∧
    ((godTierNotify slots prev cooldownActive mode).cooldownArmed = true →
      (godTierNotify slots prev cooldownActive mode).cooldownSeconds = 3600) := by
  have hslots : (decide (0 < slots.length) = true) ↔ slots ≠ [] := by
    cases slots <;> simp
  have hmode : ((mode == "silent") = false) ↔ mode ≠ "silent" := by
    simp
  cases prev with
  | none =>
    cases cooldownActive <;> simp [smartNotify, godTierNotify]
  | some t =>
    cases t <;> cases cooldownActive <;>
      simp [smartNotify, godTierNotify, hslots, hmode]

/-- Witness for C2 (amended): a non-silent task with previous state
Closed, an Open observation and no cooldown gets the alert. -/
theorem alert_sent_iff_closed_to_open_witness :
    (smartNotify "available" ["10:00"] (some TicketState.closed) false
      "available_only").alertSent = true :=
  ((alert_sent_iff_closed_to_open "available" ["10:00"]
      (some TicketState.closed) false "available_only").1).mpr
    ⟨rfl, by decide, rfl, by decide⟩

/-- C7 counterexample.  An error outcome (`status = 'error'`, empty slot
list) for a subscriber whose previous recorded state is Open: the state
cache is overwritten to Closed, i.e. the per-(task, ticket, date) state
does record an Open→Closed transition (a later genuine Open observation
will be treated as Closed→Open), refuting the claim that an error
observation records no such transition. -/
theorem error_outcome_overwrites_open_state :
    (smartNotify "error" [] (some TicketState.available) false
        "available_only").newState = TicketState.closed ∧
    (smartNotify "error" [] (some TicketState.available) false
        "available_only").lastStatus = "error" ∧
    (smartNotify "error" [] (some TicketState.available) false
        "available_only").lastCheckedUpdated = true := by
  decide

/-- C7 (amended).  For an error outcome every sharing subscriber's
last-checked timestamp is updated and its last-known status is set to
`'error'`; no alert fires and no Closed→Open transition is recorded,
but the per-(task, ticket, date) notifier state is overwritten to
Closed, so a previously Open state is recorded as Closed by the error
observation. -/
theorem error_outcome_spec (prev : Option TicketState)
    (cooldownActive : Bool) (mode : String) :
    (smartNotify "error" [] prev cooldownActive mode).lastCheckedUpdated =
        true ∧
    (smartNotify "error" [] prev cooldownActive mode).lastStatus = "error" ∧
    (smartNotify "error" [] prev cooldownActive mode).alertSent = false ∧
    (smartNotify "error" [] prev cooldownActive mode).newState =
        TicketState.closed ∧
    ¬(prev = some TicketState.closed ∧
        (smartNotify "error" [] prev cooldownActive mode).newState =
          TicketState.available) := by
  refine ⟨rfl, rfl, by simp [smartNotify], rfl, ?_⟩
  rintro ⟨-, hnew⟩
  exact absurd hnew (by simp [smartNotify])

/-- Witness for C7 (amended): the spec at a concrete first-observation
error outcome. -/
theorem error_outcome_spec_witness :
    (smartNotify "error" [] none false "any_change").lastStatus = "error" ∧
    (smartNotify "error" [] none false "any_change").alertSent = false :=
  ⟨(error_outcome_spec none false "any_change").2.1,
    (error_outcome_spec none false "any_change").2.2.1⟩

/-! ## Shared-monitor content-hash deduplication
(`run_shared_vatican_monitor`, `backend/monitors/tasks.py` 560-839) -/

/-- Byte-wise (code-point) lexicographic order on character lists, the
order Python's `sorted` uses on strings. -/
def charListLe : List Char → List Char → Bool
  | [], _ => true
  | _ :: _, [] => false
  | a :: as, b :: bs =>
    if a < b then true else if b < a then false else charListLe as bs

/-- Python's `sorted` on a list of strings. -/
def sortStrings (l : List String) : List String :=
  List.insertionSort (fun a b => charListLe a.data b.data = true) l

/-- One entry of a per-date result list in the shared monitor:
`{'id': ..., 'name': ..., 'slots': [...]}`. -/
structure RichItem where
  id : String
  name : String
  slots : List String
deriving DecidableEq, Repr

/-- `found_any`: some item of some date carries a nonempty slot list. -/
def anyFound (updates : List (String × List RichItem)) : Bool :=
  updates.any (fun du => du.2.any (fun it => decide (0 < it.slots.length)))

/-- The canonical content string the shared monitor hashes: for each date
in sorted order, each item with a nonempty slot list contributes
`date:name:slot1,slot2,...|` with the slots sorted. -/
def contentStr (updates : List (String × List RichItem)) : String :=
  (sortStrings (updates.map (fun du => du.1))).foldl
    (fun acc d =>
      ((updates.lookup d).getD []).foldl
        (fun acc it =>
          if it.slots.isEmpty then acc
          else acc ++ d ++ ":" ++ it.name ++ ":" ++
            String.intercalate "," (sortStrings it.slots) ++ "|")
        acc)
    ""

/-- The MD5 digest of `contentStr` is modelled by the canonical content
string itself: the dedup logic only ever compares digests of canonical
strings for equality, and equal strings have equal digests. -/
def contentHash (updates : List (String × List RichItem)) : String :=
  contentStr updates

/-- Outcome of one notification pass of `run_shared_vatican_monitor` for
one task. -/
structure SharedOutcome where
  /-- `send_telegram_signal` is reached for this task on this pass -/
  notified : Bool
  /-- the `_notified_hash` field stored in `task.last_result_summary`
  after the pass -/
  notifiedHash : Option String
deriving DecidableEq, Repr

/-- Embedding of the per-task notification pass of
`run_shared_vatican_monitor` (lines 676-833): if slots were found and the
current content hash equals the `_notified_hash` of the stored summary,
the notification is skipped and the stored hash kept; otherwise the task
is notified when slots were found and its mode is not `silent`, and the
summary hash is replaced by the current hash whenever slots were found. -/
def sharedStep (mode : String) (lastHash : Option String)
    (updates : List (String × List RichItem)) : SharedOutcome :=
  let found_any := anyFound updates
  let current_hash := contentHash updates
  if found_any && (lastHash == some current_hash) then
    { notified := false, notifiedHash := lastHash }
  else
    { notified := found_any && !(mode == "silent")
      notifiedHash := if found_any then some current_hash else lastHash }

/-- C8.  Under the `any_change` policy, running the same outcome content
through the shared notifier twice yields a notification on the first pass
and suppression on the second: the first pass stores the content hash of
the outcome (dates and slot lists in sorted order) and the second pass
finds the current hash equal to the stored one.  Moreover the `any_change`
decision is a function of content-hash equality alone: it notifies exactly
when slots were found and the stored hash differs from the current one —
no open/closed state machine is consulted. -/
theorem any_change_dedup_round_trip (updates : List (String × List RichItem))
    (h : anyFound updates = true) :
    (sharedStep "any_change" none updates).notified = true ∧
    (sharedStep "any_change" none updates).notifiedHash =
      some (contentHash updates) ∧
    (sharedStep "any_change"
        (sharedStep "any_change" none updates).notifiedHash updates).notified =
      false ∧
    (sharedStep "any_change"
        (sharedStep "any_change" none updates).notifiedHash
        updates).notifiedHash = some (contentHash updates) ∧
    (∀ last : Option String,
      (sharedStep "any_change" last updates).notified = true ↔
        ¬ last = some (contentHash updates)) := by
  have h1 : sharedStep "any_change" none updates =
      { notified := true, notifiedHash := some (contentHash updates) } := by
    simp [sharedStep, h]
  refine ⟨by rw [h1], by rw [h1], ?_, ?_, ?_⟩
  · rw [h1]
    simp [sharedStep, h]
  · rw [h1]
    simp [sharedStep, h]
  · intro last
    by_cases hl : last = some (contentHash updates)
    · subst hl
      simp [sharedStep, h]
    · have hbeq : (last == some (contentHash updates)) = false := by
        simpa using hl
      simp [sharedStep, h, hbeq, hl]

/-- A concrete one-date outcome for the round-trip witness. -/
def updatesDemo : List (String × List RichItem) :=
  [("20/03/2026", [{ id := "929041748", name := "Admission",
                     slots := ["09:00"] }])]

/-- Witness for C8: the round trip on the concrete outcome. -/
theorem any_change_dedup_round_trip_witness :
    (sharedStep "any_change" none updatesDemo).notified = true ∧
    (sharedStep "any_change"
        (sharedStep "any_change" none updatesDemo).notifiedHash
        updatesDemo).notified = false := by
  have h := any_change_dedup_round_trip updatesDemo (by decide)
  exact ⟨h.1, h.2.2.1⟩

/-! ## Orchestration (`orchestrate_all_tasks`, `backend/monitors/tasks.py`
905-1026) -/

/-- Fields of the Django model `MonitorTask` read by the orchestrator.
`ticket_id`, `ticket_name` and `language` are nullable char fields
(`none` = NULL); `check_interval` is an integer field, carried as an
`Option` because the due computation guards against a falsy value;
`last_checked` is a nullable timestamp in seconds. -/
structure MonitorTask where
  id : Nat
  site : String
  dates : List String
  ticket_id : Option String
  ticket_name : Option String
  ticket_type : Nat
  language : Option String
  check_interval : Option Int
  is_active : Bool
  last_checked : Option Int
  notification_mode : String
deriving DecidableEq, Repr

/-- Python truthiness of a nullable char field (`if task.ticket_id:`):
false for NULL and for the empty string. -/
def truthyStr : Option String → Bool
  | none => false
  | some s => !(s == "")

/-- `task.language or None`: collapses the empty string to NULL. -/
def orNone : Option String → Option String
  | none => none
  | some s => if s = "" then none else some s

/-- The effective check interval of `orchestrate_all_tasks` lines
924-928: a falsy (`NULL`/0) or sub-60 configured interval is forced to
60 seconds. -/
def effectiveInterval (t : MonitorTask) : Int :=
  match t.check_interval with
  | none => 60
  | some i => if i < 60 then 60 else i

/-- The due computation of lines 930-936: a task with no `last_checked`
runs immediately; otherwise it runs when the elapsed time reaches the
effective interval. -/
def shouldRun (now : Int) (t : MonitorTask) : Bool :=
  match t.last_checked with
  | none => true
  | some lc => decide (effectiveInterval t ≤ now - lc)

/-- A due, active Vatican task with a nonempty date list and a truthy
`ticket_id` enters the smart grouping (lines 938-953). -/
def isSmartDue (now : Int) (t : MonitorTask) : Bool :=
  t.is_active && shouldRun now t && (t.site == "vatican") &&
    !t.dates.isEmpty && truthyStr t.ticket_id

/-- The canonical check fingerprint: `(date, task.ticket_id,
task.language or None)`. -/
abbrev Fingerprint := String × String × Option String

/-- The fingerprint a task contributes for one of its dates. -/
def taskFingerprint (t : MonitorTask) (d : String) : Fingerprint :=
  (d, t.ticket_id.getD "", orNone t.language)

/-- All fingerprints a task contributes (one per requested date). -/
def fingerprintsOf (t : MonitorTask) : List Fingerprint :=
  t.dates.map (taskFingerprint t)

/-- One entry of the `smart_groups` dict: a fingerprint together with the
`ticket_name` recorded at creation and the accumulated `task_ids`. -/
structure SmartGroup where
  key : Fingerprint
  ticket_name : String
  task_ids : List Nat
deriving DecidableEq, Repr

/-- Inserting one `(fingerprint, task id)` pair into the group list,
mirroring the Python dict with insertion-order iteration: an existing
entry gets the id appended; a missing key is appended at the end with
the task's name and a singleton id list. -/
def addTask (gs : List SmartGroup) (k : Fingerprint) (nm : String)
    (tid : Nat) : List SmartGroup :=
  match gs with
  | [] => [⟨k, nm, [tid]⟩]
  | g :: rest =>
    if g.key = k then ⟨g.key, g.ticket_name, g.task_ids ++ [tid]⟩ :: rest
    else g :: addTask rest k nm tid

/-- The inner date loop of the grouping pass for one due task. -/
def addTaskDates (gs : List SmartGroup) (t : MonitorTask) :
    List SmartGroup :=
  t.dates.foldl
    (fun gs d =>
      addTask gs (taskFingerprint t d) (t.ticket_name.getD "Unknown Ticket")
        t.id)
    gs

/-- The full smart-grouping pass of one orchestrator tick over the active
task queryset; the dispatch loop then issues exactly one
`run_god_tier_vatican_monitor` / `run_smart_vatican_monitor` Celery task
per entry of this list, carrying that entry's `task_ids`. -/
def smartGroups (now : Int) (tasks : List MonitorTask) : List SmartGroup :=
  tasks.foldl
    (fun gs t => if isSmartDue now t then addTaskDates gs t else gs) []

/-- `Mentions gs k tid`: some group with fingerprint `k` lists task
`tid`. -/
def Mentions (gs : List SmartGroup) (k : Fingerprint) (tid : Nat) : Prop :=
  ∃ g ∈ gs, g.key = k ∧ tid ∈ g.task_ids

instance (gs : List SmartGroup) (k : Fingerprint) (tid : Nat) :
    Decidable (Mentions gs k tid) := by
  unfold Mentions
  infer_instance

/-- `Mentions` on a cons cell. -/
theorem mentions_cons {g : SmartGroup} {gs : List SmartGroup}
    {k : Fingerprint} {tid : Nat} :
    Mentions (g :: gs) k tid ↔
      (g.key = k ∧ tid ∈ g.task_ids) ∨ Mentions gs k tid := by
  constructor
  · rintro ⟨x, hx, hk, ht⟩
    rcases List.mem_cons.mp hx with rfl | hx'
    · exact Or.inl ⟨hk, ht⟩
    · exact Or.inr ⟨x, hx', hk, ht⟩
  · rintro (⟨hk, ht⟩ | ⟨x, hx, hk, ht⟩)
    · exact ⟨g, List.mem_cons_self _ _, hk, ht⟩
    · exact ⟨x, List.mem_cons_of_mem _ hx, hk, ht⟩

/-- `Mentions` on the empty list. -/
theorem mentions_nil {k : Fingerprint} {tid : Nat} :
    ¬ Mentions [] k tid := by
  rintro ⟨x, hx, -⟩
  cases hx

/-- What `addTask` mentions: everything the old list did, plus the new
pair. -/
theorem addTask_mentions (gs : List SmartGroup) (k : Fingerprint)
    (nm : String) (tid : Nat) (k2 : Fingerprint) (t2 : Nat) :
    Mentions (addTask gs k nm tid) k2 t2 ↔
      Mentions gs k2 t2 ∨ (k2 = k ∧ t2 = tid) := by
  induction gs with
  | nil =>
    simp only [addTask]
    rw [mentions_cons]
    simp only [List.mem_singleton]
    constructor
    · rintro (⟨hk, ht⟩ | h)
      · exact Or.inr ⟨hk.symm, ht⟩
      · exact absurd h mentions_nil
    · rintro (h | ⟨hk, ht⟩)
      · exact absurd h mentions_nil
      · exact Or.inl ⟨hk.symm, ht⟩
  | cons g rest ih =>
    by_cases hk : g.key = k
    · simp only [addTask, if_pos hk]
      rw [mentions_cons, mentions_cons]
      simp only [List.mem_append, List.mem_singleton]
      constructor
      · rintro (⟨hk2, ht | ht⟩ | h)
        · exact Or.inl (Or.inl ⟨hk2, ht⟩)
        · exact Or.inr ⟨hk ▸ hk2.symm ▸ rfl, ht⟩
        · exact Or.inl (Or.inr h)
      · rintro ((⟨hk2, ht⟩ | h) | ⟨hk2, ht⟩)
        · exact Or.inl ⟨hk2, Or.inl ht⟩
        · exact Or.inr h
        · exact Or.inl ⟨by rw [hk, ← hk2], Or.inr ht⟩
    · simp only [addTask, if_neg hk]
      rw [mentions_cons, mentions_cons, ih]
      tauto

/-- The keys of `addTask`: unchanged for an existing fingerprint, extended
by the new fingerprint otherwise. -/
theorem addTask_keys (gs : List SmartGroup) (k : Fingerprint) (nm : String)
    (tid : Nat) :
    (addTask gs k nm tid).map (fun g => g.key) =
      if k ∈ gs.map (fun g => g.key) then gs.map (fun g => g.key)
      else gs.map (fun g => g.key) ++ [k] := by
  induction gs with
  | nil => simp [addTask]
  | cons g rest ih =>
    by_cases hk : g.key = k
    · simp [addTask, hk]
    · have hk' : ¬ k = g.key := fun h => hk h.symm
      by_cases hmem : k ∈ rest.map (fun g => g.key)
      · simp [addTask, hk, hk', hmem, ih]
      · simp [addTask, hk, hk', hmem, ih]

/-- `addTask` keeps the fingerprint keys duplicate-free. -/
theorem addTask_nodup (gs : List SmartGroup) (k : Fingerprint) (nm : String)
    (tid : Nat) (h : (gs.map (fun g => g.key)).Nodup) :
    ((addTask gs k nm tid).map (fun g => g.key)).Nodup := by
  rw [addTask_keys]
  by_cases hmem : k ∈ gs.map (fun g => g.key)
  · simpa [hmem] using h
  · simp only [hmem, if_false]
    simp [List.nodup_append, h, hmem]

/-- `addTask` keeps every group's id list nonempty. -/
theorem addTask_ids_ne_nil (gs : List SmartGroup) (k : Fingerprint)
    (nm : String) (tid : Nat) (h : ∀ g ∈ gs, g.task_ids ≠ []) :
    ∀ g ∈ addTask gs k nm tid, g.task_ids ≠ [] := by
  induction gs with
  | nil =>
    intro g hg
    simp only [addTask, List.mem_singleton] at hg
    subst hg
    simp
  | cons g0 rest ih =>
    intro g hg
    by_cases hk : g0.key = k
    · simp only [addTask, if_pos hk] at hg
      rcases List.mem_cons.mp hg with rfl | hg'
      · simp
      · exact h g (List.mem_cons_of_mem _ hg')
    · simp only [addTask, if_neg hk] at hg
      rcases List.mem_cons.mp hg with rfl | hg'
      · exact h g (List.mem_cons_self _ _)
      · exact ih (fun g' hg' => h g' (List.mem_cons_of_mem _ hg')) g hg'

/-- What the date loop of one task mentions. -/
theorem foldl_addTask_mentions (f : String → Fingerprint) (nm : String)
    (tid : Nat) :
    ∀ (ds : List String) (gs : List SmartGroup) (k2 : Fingerprint) (t2 : Nat),
      Mentions (ds.foldl (fun gs d => addTask gs (f d) nm tid) gs) k2 t2 ↔
        Mentions gs k2 t2 ∨ (t2 = tid ∧ ∃ d ∈ ds, k2 = f d) := by
  intro ds
  induction ds with
  | nil => intro gs k2 t2; simp
  | cons d ds ih =>
    intro gs k2 t2
    rw [List.foldl_cons, ih, addTask_mentions]
    simp only [List.mem_cons]
    constructor
    · rintro ((h | ⟨hk, ht⟩) | ⟨ht, d', hd', hk⟩)
      · exact Or.inl h
      · exact Or.inr ⟨ht, d, Or.inl rfl, hk⟩
      · exact Or.inr ⟨ht, d', Or.inr hd', hk⟩
    · rintro (h | ⟨ht, d', (rfl | hd'), hk⟩)
      · exact Or.inl (Or.inl h)
      · exact Or.inl (Or.inr ⟨hk, ht⟩)
      · exact Or.inr ⟨ht, d', hd', hk⟩

/-- The date loop keeps keys duplicate-free. -/
theorem foldl_addTask_nodup (f : String → Fingerprint) (nm : String)
    (tid : Nat) :
    ∀ (ds : List String) (gs : List SmartGroup),
      (gs.map (fun g => g.key)).Nodup →
      ((ds.foldl (fun gs d => addTask gs (f d) nm tid) gs).map
          (fun g => g.key)).Nodup := by
  intro ds
  induction ds with
  | nil => intro gs h; simpa using h
  | cons d ds ih =>
    intro gs h
    rw [List.foldl_cons]
    exact ih _ (addTask_nodup gs (f d) nm tid h)

/-- The date loop keeps id lists nonempty. -/
theorem foldl_addTask_ids_ne_nil (f : String → Fingerprint) (nm : String)
    (tid : Nat) :
    ∀ (ds : List String) (gs : List SmartGroup),
      (∀ g ∈ gs, g.task_ids ≠ []) →
      ∀ g ∈ ds.foldl (fun gs d => addTask gs (f d) nm tid) gs,
        g.task_ids ≠ [] := by
  intro ds
  induction ds with
  | nil => intro gs h; simpa using h
  | cons d ds ih =>
    intro gs h
    rw [List.foldl_cons]
    exact ih _ (addTask_ids_ne_nil gs (f d) nm tid h)

/-- What the task loop of the grouping pass mentions. -/
theorem foldl_stepTask_mentions (now : Int) :
    ∀ (tasks : List MonitorTask) (gs : List SmartGroup) (k : Fingerprint)
      (tid : Nat),
      Mentions
          (tasks.foldl
            (fun gs t => if isSmartDue now t then addTaskDates gs t else gs)
            gs) k tid ↔
        Mentions gs k tid ∨
          ∃ t ∈ tasks, isSmartDue now t = true ∧ tid = t.id ∧
            ∃ d ∈ t.dates, k = taskFingerprint t d := by
  intro tasks
  induction tasks with
  | nil => intro gs k tid; simp
  | cons t ts ih =>
    intro gs k tid
    rw [List.foldl_cons]
    by_cases hdue : isSmartDue now t = true
    · rw [if_pos hdue, ih]
      unfold addTaskDates
      rw [foldl_addTask_mentions]
      simp only [List.mem_cons]
      constructor
      · rintro ((h | ⟨ht, hd⟩) | ⟨t', ht', hs, hid, hd⟩)
        · exact Or.inl h
        · exact Or.inr ⟨t, Or.inl rfl, hdue, ht, hd⟩
        · exact Or.inr ⟨t', Or.inr ht', hs, hid, hd⟩
      · rintro (h | ⟨t', (rfl | ht'), hs, hid, hd⟩)
        · exact Or.inl (Or.inl h)
        · exact Or.inl (Or.inr ⟨hid, hd⟩)
        · exact Or.inr ⟨t', ht', hs, hid, hd⟩
    · rw [if_neg hdue, ih]
      constructor
      · rintro (h | ⟨t', ht', hs, hid, hd⟩)
        · exact Or.inl h
        · exact Or.inr ⟨t', List.mem_cons_of_mem _ ht', hs, hid, hd⟩
      · rintro (h | ⟨t', ht', hs, hid, hd⟩)
        · exact Or.inl h
        · rcases List.mem_cons.mp ht' with rfl | ht''
          · exact absurd hs hdue
          · exact Or.inr ⟨t', ht'', hs, hid, hd⟩

/-- The task loop keeps keys duplicate-free and id lists nonempty. -/
theorem foldl_stepTask_nodup_ids (now : Int) :
    ∀ (tasks : List MonitorTask) (gs : List SmartGroup),
      (gs.map (fun g => g.key)).Nodup →
      (∀ g ∈ gs, g.task_ids ≠ []) →
      (((tasks.foldl
            (fun gs t => if isSmartDue now t then addTaskDates gs t else gs)
            gs).map (fun g => g.key)).Nodup ∧
        ∀ g ∈ tasks.foldl
            (fun gs t => if isSmartDue now t then addTaskDates gs t else gs)
            gs, g.task_ids ≠ []) := by
  intro tasks
  induction tasks with
  | nil => intro gs h1 h2; exact ⟨h1, h2⟩
  | cons t ts ih =>
    intro gs h1 h2
    rw [List.foldl_cons]
    by_cases hdue : isSmartDue now t = true
    · rw [if_pos hdue]
      exact ih _ (foldl_addTask_nodup _ _ _ _ _ h1)
        (foldl_addTask_ids_ne_nil _ _ _ _ _ h2)
    · rw [if_neg hdue]
      exact ih _ h1 h2

/-- A task id appears under a fingerprint in the smart grouping iff some
listed task is smart-due with that id and contributes that
fingerprint. -/
theorem smartGroups_mentions_iff (now : Int) (tasks : List MonitorTask)
    (k : Fingerprint) (tid : Nat) :
    Mentions (smartGroups now tasks) k tid ↔
      ∃ t ∈ tasks, isSmartDue now t = true ∧ tid = t.id ∧
        k ∈ fingerprintsOf t := by
  unfold smartGroups
  rw [foldl_stepTask_mentions]
  constructor
  · rintro (h | ⟨t, ht, hs, hid, d, hd, hk⟩)
    · exact absurd h mentions_nil
    · exact ⟨t, ht, hs, hid, by
        rw [hk]
        exact List.mem_map_of_mem _ hd⟩
  · rintro ⟨t, ht, hs, hid, hk⟩
    obtain ⟨d, hd, hfd⟩ := List.mem_map.mp hk
    exact Or.inr ⟨t, ht, hs, hid, d, hd, hfd.symm⟩

/-- C1.  In every orchestrator tick, over any active-task queryset: the
smart grouping produces at most one group per distinct fingerprint
(keys are duplicate-free), so exactly one check task is dispatched per
fingerprint; every dispatched group has a nonempty subscriber list; and
a task id is listed under a fingerprint iff that task is due, active,
Vatican-sited, has dates and a concrete `ticket_id`, and contributes
that fingerprint `(date, ticket_id, language-or-null)` for one of its
dates — so every due subscription sharing a fingerprint is listed in
the single check dispatched for it. -/
theorem orchestrate_smart_groups_spec (now : Int)
    (tasks : List MonitorTask) :
    ((smartGroups now tasks).map (fun g => g.key)).Nodup ∧
    (∀ g ∈ smartGroups now tasks, g.task_ids ≠ []) ∧
    (∀ (k : Fingerprint) (tid : Nat),
      Mentions (smartGroups now tasks) k tid ↔
        ∃ t ∈ tasks, isSmartDue now t = true ∧ tid = t.id ∧
          k ∈ fingerprintsOf t) := by
  have hni := foldl_stepTask_nodup_ids now tasks [] (by simp) (by simp)
  exact ⟨hni.1, hni.2, fun k tid => smartGroups_mentions_iff now tasks k tid⟩

/-- A concrete due Vatican task (never checked before) used by the
witnesses. -/
def taskDemoA : MonitorTask :=
  { id := 1, site := "vatican", dates := ["20/03/2026"],
    ticket_id := some "929041748", ticket_name := some "Guided Tour",
    ticket_type := 1, language := some "ENG", check_interval := some 120,
    is_active := true, last_checked := none,
    notification_mode := "available_only" }

/-- A second subscriber sharing the same fingerprint. -/
def taskDemoB : MonitorTask := { taskDemoA with id := 2 }

/-- Witness for C1: with two due subscribers sharing the fingerprint
`(20/03/2026, 929041748, ENG)`, the second subscriber's id is listed in
the (unique) group for that fingerprint. -/
theorem orchestrate_smart_groups_spec_witness :
    Mentions (smartGroups 0 [taskDemoA, taskDemoB])
      ("20/03/2026", "929041748", some "ENG") 2 :=
  ((orchestrate_smart_groups_spec 0 [taskDemoA, taskDemoB]).2.2
      ("20/03/2026", "929041748", some "ENG") 2).mpr
    ⟨taskDemoB, by decide, by decide, by decide, by decide⟩

/-- C10.  A task whose `last_checked` is NULL is due on the next tick
whatever its configured interval; with a timestamp, it is due exactly
when the elapsed time reaches the effective interval; the effective
interval is 60 s for a missing (NULL) interval, 60 s for any configured
value below 60, the configured value otherwise, and never below 60;
and a never-checked active Vatican task with a concrete `ticket_id` is
dispatched for each of its dates. -/
theorem due_and_interval_floor_spec (t : MonitorTask) (now : Int) :
    (t.last_checked = none → shouldRun now t = true) ∧
    (∀ lc : Int, t.last_checked = some lc →
      (shouldRun now t = true ↔ effectiveInterval t ≤ now - lc)) ∧
    (t.check_interval = none → effectiveInterval t = 60) ∧
    (∀ i : Int, t.check_interval = some i → i < 60 →
      effectiveInterval t = 60) ∧
    (∀ i : Int, t.check_interval = some i → 60 ≤ i →
      effectiveInterval t = i) ∧
    60 ≤ effectiveInterval t ∧
    (∀ (tasks : List MonitorTask) (d : String), t ∈ tasks →
      t.last_checked = none → t.is_active = true → t.site = "vatican" →
      truthyStr t.ticket_id = true → d ∈ t.dates →
      Mentions (smartGroups now tasks) (taskFingerprint t d) t.id) := by
  refine ⟨?_, ?_, ?_, ?_, ?_, ?_, ?_⟩
  · intro h
    unfold shouldRun
    rw [h]
  · intro lc h
    unfold shouldRun
    rw [h]
    simp
  · intro h
    unfold effectiveInterval
    rw [h]
  · intro i h hi
    unfold effectiveInterval
    rw [h]
    simp [hi]
  · intro i h hi
    unfold effectiveInterval
    rw [h]
    simp only [if_neg (by omega : ¬ i < 60)]
  · cases hc : t.check_interval with
    | none => simp [effectiveInterval, hc]
    | some i =>
      by_cases hi : i < 60
      · simp [effectiveInterval, hc, hi]
      · simp only [effectiveInterval, hc, if_neg hi]
        omega
  · intro tasks d hmem hlast hact hsite htid hd
    have hrun : shouldRun now t = true := by
      unfold shouldRun
      rw [hlast]
    have hdue : isSmartDue now t = true := by
      unfold isSmartDue
      rw [hact, hrun, hsite, htid]
      have : t.dates.isEmpty = false := by
        cases hds : t.dates with
        | nil => rw [hds] at hd; cases hd
        | cons a l => simp
      rw [this]
      rfl
    exact (smartGroups_mentions_iff now tasks (taskFingerprint t d)
        t.id).mpr ⟨t, hmem, hdue, rfl, List.mem_map_of_mem _ hd⟩

/-- Witness for C10: the never-checked demo task is due at time 0 despite
its 120 s interval, and a 10 s configured interval is floored to 60 s. -/
theorem due_and_interval_floor_spec_witness :
    shouldRun 0 taskDemoA = true ∧
    effectiveInterval { taskDemoA with check_interval := some 10 } = 60 :=
  ⟨(due_and_interval_floor_spec taskDemoA 0).1 rfl,
    (due_and_interval_floor_spec { taskDemoA with check_interval := some 10 }
        0).2.2.2.1 10 rfl (by norm_num)⟩

/-! ## Session/catalog cache and the cheap-path check
(`worker_vatican/god_tier_monitor_v2.py`) -/

/-- One harvested ticket entry of the `ids_cache`. -/
structure TicketItem where
  id : String
  name : String
deriving DecidableEq, Repr

/-- Content of the `vatican_session.json` file: cookies (name/value),
the per-date `ids_cache`, and the age in whole hours derived from
`last_updated` at load time (`none` when `last_updated` is empty). -/
structure SessionFile where
  cookies : List (String × String)
  idsCache : List (String × List TicketItem)
  ageHours : Option Nat
deriving DecidableEq, Repr

/-- `CACHE_MAX_AGE_HOURS = 4` ("4 hours as per working configuration"). -/
def CACHE_MAX_AGE_HOURS : Nat := 4

/-- Embedding of `GodTierVaticanMonitorV2._load_session` (lines 87-105).
`file` is the parsed session file (`none`: the file is absent or
unparsable).  Note the source's control flow: when the age reaches
`CACHE_MAX_AGE_HOURS` the function logs "Session expired" in the `else`
branch and then falls through to the same `return data`, so the loaded
cache is the file content in both branches — the age comparison has no
effect on the result. -/
def loadSession (file : Option SessionFile) : SessionFile :=
  match file with
  | some data =>
    match data.ageHours with
    | some age =>
      if age < CACHE_MAX_AGE_HOURS then
        data
      else
        data
    | none => data
  | none => { cookies := [], idsCache := [], ageHours := none }

/-- Embedding of `validate_api_session` (lines 183-227): with no cached
cookies the validation fails without any request; otherwise one cheap
probe against `/api/home/info` with the cached cookies decides it
(`probeOk` is the oracle for "the probe returned HTTP 200"). -/
def validate_api_session (cache : SessionFile) (probeOk : Bool) : Bool :=
  if cache.cookies.isEmpty then false else probeOk

/-- Externally visible requests issued by `check_availability`. -/
inductive Ev where
  /-- the cheap revalidation probe of `validate_api_session` -/
  | validateProbe (ok : Bool)
  /-- one `refresh_session_with_browser` heavy acquisition -/
  | heavyRefresh (ok : Bool)
  /-- one `/api/visit/timeavail` availability probe -/
  | availProbe (ticketId : String) (lang : String)
deriving DecidableEq, Repr

/-- The ticket-type filter of the availability loop (lines 421-450):
guided entries (name containing `Guidat` or `Guided`) are skipped for
standard checks and vice versa; each surviving entry is probed once per
requested language. -/
def probeList (ids : List TicketItem) (ticketType : Nat)
    (langs : List String) : List Ev :=
  ids.foldl
    (fun acc it =>
      let is_guided := containsSubAux "Guidat".data it.name.data ||
        containsSubAux "Guided".data it.name.data
      if ticketType == 0 && is_guided then acc
      else if ticketType == 1 && !is_guided then acc
      else acc ++ langs.map (fun l => Ev.availProbe it.id l))
    []

/-- The language defaulting of lines 393-395. -/
def defaultLangs (ticketType : Nat) (languages : List String) :
    List String :=
  if languages.isEmpty then
    if ticketType == 1 then ["ITA", "ENG"] else ["ITA"]
  else languages

/-- Step 2 of `check_availability` (lines 373-383 and the probe loop):
look up the cached ids for the date; when absent run a harvesting
browser refresh (`r` is its oracle result: the new session file on
success) and re-read; then issue the availability probes. -/
def checkStep2 (cache : SessionFile) (r : Option SessionFile)
    (dateStr : String) (ticketType : Nat) (langs : List String) : List Ev :=
  let ids := (cache.idsCache.lookup dateStr).getD []
  if ids.isEmpty then
    match r with
    | none => [Ev.heavyRefresh false]
    | some c2 =>
      let ids2 := (c2.idsCache.lookup dateStr).getD []
      Ev.heavyRefresh true ::
        (if ids2.isEmpty then [] else probeList ids2 ticketType langs)
  else probeList ids ticketType langs

/-- The request trace of one `check_availability` call (lines 354-487).
`cache` is `self.session_cache` at entry, `probeOk` the revalidation
oracle, `r1`/`r2` the oracle results of the first and second browser
refresh (consumed in call order), `none` = refresh failed.  Control
flow: validate first — on failure refresh (returning an empty result if
that fails too) — then resolve cached ids (refreshing once more if the
date is missing) and issue one probe per surviving entry/language. -/
def check_availability_trace (cache : SessionFile) (probeOk : Bool)
    (r1 r2 : Option SessionFile) (dateStr : String) (ticketType : Nat)
    (languages : List String) : List Ev :=
  let langs := defaultLangs ticketType languages
  let vEvents : List Ev :=
    if cache.cookies.isEmpty then [] else [Ev.validateProbe probeOk]
  if validate_api_session cache probeOk then
    vEvents ++ checkStep2 cache r1 dateStr ticketType langs
  else
    match r1 with
    | none => vEvents ++ [Ev.heavyRefresh false]
    | some c1 =>
      vEvents ++ (Ev.heavyRefresh true ::
        checkStep2 c1 r2 dateStr ticketType langs)

/-- Everything `probeList` emits is an availability probe. -/
theorem probeList_all_avail (ids : List TicketItem) (ticketType : Nat)
    (langs : List String) :
    ∀ e ∈ probeList ids ticketType langs,
      ∃ i l, e = Ev.availProbe i l := by
  suffices h : ∀ (ids : List TicketItem) (acc : List Ev),
      (∀ e ∈ acc, ∃ i l, e = Ev.availProbe i l) →
      ∀ e ∈ ids.foldl
          (fun acc it =>
            let is_guided := containsSubAux "Guidat".data it.name.data ||
              containsSubAux "Guided".data it.name.data
            if ticketType == 0 && is_guided then acc
            else if ticketType == 1 && !is_guided then acc
            else acc ++ langs.map (fun l => Ev.availProbe it.id l))
          acc, ∃ i l, e = Ev.availProbe i l by
    exact h ids [] (by simp)
  intro ids
  induction ids with
  | nil => intro acc hacc; simpa using hacc
  | cons it rest ih =>
    intro acc hacc
    rw [List.foldl_cons]
    apply ih
    by_cases h0 : (ticketType == 0 &&
        (containsSubAux "Guidat".data it.name.data ||
          containsSubAux "Guided".data it.name.data)) = true
    · simpa [h0] using hacc
    · by_cases h1 : (ticketType == 1 &&
          !(containsSubAux "Guidat".data it.name.data ||
            containsSubAux "Guided".data it.name.data)) = true
      · simp only [h0, h1]
        simpa using hacc
      · simp only [h0, h1, Bool.false_eq_true, if_false]
        intro e he
        rcases List.mem_append.mp he with h | h
        · exact hacc e h
        · obtain ⟨l, -, hl⟩ := List.mem_map.mp h
          exact ⟨it.id, l, hl.symm⟩

/-- `checkStep2` is a block of non-probe events followed by a block of
availability probes. -/
theorem checkStep2_split (cache : SessionFile) (r : Option SessionFile)
    (dateStr : String) (ticketType : Nat) (langs : List String) :
    ∃ pre post, checkStep2 cache r dateStr ticketType langs = pre ++ post ∧
      (∀ e ∈ pre, ∀ i l, e ≠ Ev.availProbe i l) ∧
      (∀ e ∈ post, ∃ i l, e = Ev.availProbe i l) := by
  unfold checkStep2
  by_cases hids : ((cache.idsCache.lookup dateStr).getD []).isEmpty = true
  · rw [if_pos hids]
    cases r with
    | none =>
      exact ⟨[Ev.heavyRefresh false], [], by simp, by simp, by simp⟩
    | some c2 =>
      by_cases hids2 : ((c2.idsCache.lookup dateStr).getD []).isEmpty = true
      · exact ⟨[Ev.heavyRefresh true], [], by simp [hids2], by simp, by simp⟩
      · refine ⟨[Ev.heavyRefresh true],
          probeList ((c2.idsCache.lookup dateStr).getD []) ticketType langs,
          by simp [hids2], by simp, ?_⟩
        exact probeList_all_avail _ _ _
  · rw [if_neg hids]
    exact ⟨[], probeList ((cache.idsCache.lookup dateStr).getD [])
        ticketType langs, by simp, by simp, probeList_all_avail _ _ _⟩

/-- A successful validation implies nonempty cookies and a passing probe. -/
theorem validate_true_elim {cache : SessionFile} {probeOk : Bool}
    (h : validate_api_session cache probeOk = true) :
    cache.cookies.isEmpty = false ∧ probeOk = true := by
  unfold validate_api_session at h
  by_cases hc : cache.cookies.isEmpty = true
  · rw [if_pos hc] at h; cases h
  · exact ⟨Bool.eq_false_iff.mpr hc, by rwa [if_neg hc] at h⟩

/-- C5.  Every `check_availability` call is a block of non-probe traffic
followed by its availability probes, and availability probes are issued
only after either the live revalidation probe with the cached credentials
succeeded or a browser refresh succeeded; moreover the whole trace is
independent of the bundle's age, so elapsed time alone never authorizes
(nor forbids) use of the cached credentials. -/
theorem availability_probe_requires_validation_or_refresh
    (cache : SessionFile) (probeOk : Bool) (r1 r2 : Option SessionFile)
    (dateStr : String) (ticketType : Nat) (languages : List String) :
    (∃ pre post,
      check_availability_trace cache probeOk r1 r2 dateStr ticketType
          languages = pre ++ post ∧
      (∀ e ∈ pre, ∀ i l, e ≠ Ev.availProbe i l) ∧
      (∀ e ∈ post, ∃ i l, e = Ev.availProbe i l) ∧
      (post ≠ [] →
        (validate_api_session cache probeOk = true ∧
          Ev.validateProbe true ∈ pre) ∨
        Ev.heavyRefresh true ∈ pre)) ∧
    (∀ a : Option Nat,
      check_availability_trace { cache with ageHours := a } probeOk r1 r2
          dateStr ticketType languages =
        check_availability_trace cache probeOk r1 r2 dateStr ticketType
          languages) := by
  constructor
  · by_cases hv : validate_api_session cache probeOk = true
    · obtain ⟨hc, hp⟩ := validate_true_elim hv
      obtain ⟨pre2, post2, hsplit, hpre2, hpost2⟩ :=
        checkStep2_split cache r1 dateStr ticketType
          (defaultLangs ticketType languages)
      refine ⟨Ev.validateProbe true :: pre2, post2, ?_, ?_, hpost2, ?_⟩
      · unfold check_availability_trace
        rw [if_pos hv, hc]
        subst hp
        simp [hsplit]
      · intro e he
        rcases List.mem_cons.mp he with rfl | he'
        · intro i l h; cases h
        · exact hpre2 e he'
      · intro _
        exact Or.inl ⟨hv, List.mem_cons_self _ _⟩
    · cases hr1 : r1 with
      | none =>
        refine ⟨(if cache.cookies.isEmpty then [] else
            [Ev.validateProbe probeOk]) ++ [Ev.heavyRefresh false], [],
            ?_, ?_, by simp, by simp⟩
        · unfold check_availability_trace
          rw [if_neg hv]
          simp
        · intro e he
          rcases List.mem_append.mp he with h | h
          · by_cases hc : cache.cookies.isEmpty = true
            · rw [if_pos hc] at h; cases h
            · rw [if_neg hc] at h
              rcases List.mem_singleton.mp h with rfl
              intro i l hh; cases hh
          · rcases List.mem_singleton.mp h with rfl
            intro i l hh; cases hh
      | some c1 =>
        obtain ⟨pre2, post2, hsplit, hpre2, hpost2⟩ :=
          checkStep2_split c1 r2 dateStr ticketType
            (defaultLangs ticketType languages)
        refine ⟨((if cache.cookies.isEmpty then [] else
            [Ev.validateProbe probeOk]) ++ [Ev.heavyRefresh true]) ++ pre2,
            post2, ?_, ?_, hpost2, ?_⟩
        · unfold check_availability_trace
          rw [if_neg hv]
          simp [hsplit, List.append_assoc]
        · intro e he
          rcases List.mem_append.mp he with h | h
          · rcases List.mem_append.mp h with h' | h'
            · by_cases hc : cache.cookies.isEmpty = true
              · rw [if_pos hc] at h'; cases h'
              · rw [if_neg hc] at h'
                rcases List.mem_singleton.mp h' with rfl
                intro i l hh; cases hh
            · rcases List.mem_singleton.mp h' with rfl
              intro i l hh; cases hh
          · exact hpre2 e h
        · intro _
          refine Or.inr (List.mem_append.mpr (Or.inl ?_))
          exact List.mem_append.mpr (Or.inr (List.mem_singleton.mpr rfl))
  · intro a
    rfl

/-- A fresh concrete session file (1 hour old). -/
def sessionFileDemo : SessionFile :=
  { cookies := [("muva", "x")],
    idsCache := [("27/02/2026", [{ id := "929041748",
                                   name := "Admission tickets" }])],
    ageHours := some 1 }

/-- Witness for C5: the split applied to a concrete call with a valid
cached session and a passing probe. -/
theorem availability_probe_requires_validation_or_refresh_witness :
    ∃ pre post,
      check_availability_trace sessionFileDemo true none none "27/02/2026" 0
          ["ITA"] = pre ++ post ∧
      (∀ e ∈ pre, ∀ i l, e ≠ Ev.availProbe i l) ∧
      (∀ e ∈ post, ∃ i l, e = Ev.availProbe i l) ∧
      (post ≠ [] →
        (validate_api_session sessionFileDemo true = true ∧
          Ev.validateProbe true ∈ pre) ∨
        Ev.heavyRefresh true ∈ pre) :=
  (availability_probe_requires_validation_or_refresh sessionFileDemo true
    none none "27/02/2026" 0 ["ITA"]).1

/-- A session file 10 hours old — far past `CACHE_MAX_AGE_HOURS = 4`. -/
def staleSessionFile : SessionFile :=
  { cookies := [("muva", "x")],
    idsCache := [("27/02/2026", [{ id := "929041748",
                                   name := "Admission tickets" }])],
    ageHours := some 10 }

/-- C6 (code bug).  `_load_session` logs "Session expired" for a bundle
past `CACHE_MAX_AGE_HOURS` but falls through to the same `return data`,
so the over-age bundle is loaded unchanged; when the live revalidation
probe then passes, `check_availability` issues its availability probes
from the over-age bundle with no browser refresh — max-age never
triggers a refresh, contradicting the claim (and the constant's own
purpose). -/
theorem stale_session_used_without_refresh :
    loadSession (some staleSessionFile) = staleSessionFile ∧
    staleSessionFile.ageHours = some 10 ∧
    CACHE_MAX_AGE_HOURS = 4 ∧
    Ev.heavyRefresh true ∉
      check_availability_trace (loadSession (some staleSessionFile)) true
        none none "27/02/2026" 0 ["ITA"] ∧
    Ev.heavyRefresh false ∉
      check_availability_trace (loadSession (some staleSessionFile)) true
        none none "27/02/2026" 0 ["ITA"] ∧
    Ev.availProbe "929041748" "ITA" ∈
      check_availability_trace (loadSession (some staleSessionFile)) true
        none none "27/02/2026" 0 ["ITA"] := by
  decide

/-! ## Concurrent refresh (absence of single-flight,
`GodTierVaticanMonitorV2.check_availability` lines 366-371 and
`refresh_session_with_browser` lines 229-352) -/

/-- One caller of `check_availability`, reduced to the two suspension
points of the refresh path: the awaited `validate_api_session` call
(`pc = 0`), and — when the observed session was invalid — the awaited
`refresh_session_with_browser` heavy acquisition (`pc = 1`); `pc = 2`
is done.  `obs` is the validity the caller observed. -/
structure CallerState where
  pc : Nat
  obs : Bool
deriving DecidableEq, Repr

/-- Shared state of the interleaving: whether the shared session bundle
currently validates, how many heavy browser acquisitions have run, and
each caller's local state.  There is no lock, flag or future anywhere in
the source guarding `refresh_session_with_browser`, so any caller whose
validation observed an invalid session proceeds to its own refresh. -/
structure FlightState where
  valid : Bool
  heavy : Nat
  callers : Nat → CallerState

/-- One scheduler step: run caller `i` to its next suspension point.  At
`pc = 0` the caller performs its validation probe, recording the current
shared validity; at `pc = 1` a caller that observed an invalid session
performs the heavy browser acquisition (incrementing the count and
making the shared bundle valid), while one that observed a valid session
skips straight to the availability probes. -/
def stepCaller (s : FlightState) (i : Nat) : FlightState :=
  let c := s.callers i
  if c.pc = 0 then
    { s with callers := fun j =>
        if j = i then { pc := 1, obs := s.valid } else s.callers j }
  else if c.pc = 1 then
    if c.obs then
      { s with callers := fun j =>
          if j = i then { c with pc := 2 } else s.callers j }
    else
      { valid := true, heavy := s.heavy + 1,
        callers := fun j =>
          if j = i then { c with pc := 2 } else s.callers j }
  else s

/-- Run a schedule (a list of caller indices). -/
def runSchedule (s : FlightState) (sched : List Nat) : FlightState :=
  sched.foldl stepCaller s

/-- `n` concurrent callers hitting a stale/invalid shared bundle. -/
def initFlight (_n : Nat) : FlightState :=
  { valid := false, heavy := 0, callers := fun _ => { pc := 0, obs := false } }

/-- The thundering-herd schedule: every caller validates before any
refresh completes, then each runs its second step. -/
def herdSchedule (n : Nat) : List Nat :=
  List.range n ++ List.range n

/-- C4 counterexample.  Two concurrent callers, both requesting a check
while the shared bundle is invalid, under the legal interleaving
"A validates, B validates, A refreshes, B refreshes" (every await in the
source is a suspension point and no mutual exclusion exists): two heavy
browser acquisitions run, not one. -/
theorem concurrent_refresh_two_heavy :
    (runSchedule (initFlight 2) [0, 1, 0, 1]).heavy = 2 ∧ (2 : Nat) ≠ 1 := by
  constructor
  · rfl
  · decide

/-- Validation phase: with an invalid shared bundle, stepping a set of
distinct callers still at `pc = 0` leaves validity and the heavy count
unchanged and moves exactly those callers to `pc = 1` with `obs =
false`. -/
theorem runSchedule_validate_phase (l : List Nat) (hnd : l.Nodup) :
    ∀ s : FlightState, s.valid = false →
      (∀ i ∈ l, (s.callers i).pc = 0) →
      (runSchedule s l).valid = false ∧
      (runSchedule s l).heavy = s.heavy ∧
      (∀ i ∈ l, (runSchedule s l).callers i = { pc := 1, obs := false }) ∧
      (∀ i, i ∉ l → (runSchedule s l).callers i = s.callers i) := by
  induction l with
  | nil => intro s hv _; exact ⟨hv, rfl, by simp, fun i _ => rfl⟩
  | cons a l ih =>
    intro s hv h0
    have hpc : (s.callers a).pc = 0 := h0 a (List.mem_cons_self _ _)
    have hstep : stepCaller s a =
        { s with callers := fun j =>
            if j = a then { pc := 1, obs := s.valid } else s.callers j } := by
      unfold stepCaller
      rw [if_pos hpc]
    have hnd' : l.Nodup := hnd.of_cons
    have hna : a ∉ l := by
      intro hmem
      exact (List.nodup_cons.mp hnd).1 hmem
    have h0' : ∀ i ∈ l, ((stepCaller s a).callers i).pc = 0 := by
      intro i hi
      rw [hstep]
      have : i ≠ a := fun h => hna (h ▸ hi)
      simp only [this, if_false]
      exact h0 i (List.mem_cons_of_mem _ hi)
    have hv' : (stepCaller s a).valid = false := by rw [hstep]; exact hv
    obtain ⟨hv2, hh2, hin2, hout2⟩ := ih hnd' (stepCaller s a) hv' h0'
    have hrun : runSchedule s (a :: l) = runSchedule (stepCaller s a) l := by
      unfold runSchedule
      rw [List.foldl_cons]
    refine ⟨by rw [hrun]; exact hv2, ?_, ?_, ?_⟩
    · rw [hrun, hh2, hstep]
    · intro i hi
      rcases List.mem_cons.mp hi with rfl | hi'
      · rw [hrun, hout2 i hna, hstep]
        simp [hv]
      · exact hrun ▸ hin2 i hi'
    · intro i hi
      have hia : i ≠ a := fun h => hi (h ▸ List.mem_cons_self _ _)
      have hil : i ∉ l := fun h => hi (List.mem_cons_of_mem _ h)
      rw [hrun, hout2 i hil, hstep]
      simp [hia]

/-- Refresh phase: stepping a set of distinct callers that all sit at
`pc = 1` having observed an invalid session runs one heavy acquisition
per caller. -/
theorem runSchedule_refresh_phase (l : List Nat) (hnd : l.Nodup) :
    ∀ s : FlightState,
      (∀ i ∈ l, s.callers i = { pc := 1, obs := false }) →
      (runSchedule s l).heavy = s.heavy + l.length := by
  induction l with
  | nil => intro s _; simp [runSchedule]
  | cons a l ih =>
    intro s h1
    have hca : s.callers a = { pc := 1, obs := false } :=
      h1 a (List.mem_cons_self _ _)
    have hstep : stepCaller s a =
        { valid := true, heavy := s.heavy + 1,
          callers := fun j =>
            if j = a then { s.callers a with pc := 2 }
            else s.callers j } := by
      unfold stepCaller
      rw [hca]
      simp
    have hna : a ∉ l := (List.nodup_cons.mp hnd).1
    have h1' : ∀ i ∈ l, ((stepCaller s a).callers i) =
        { pc := 1, obs := false } := by
      intro i hi
      rw [hstep]
      have : i ≠ a := fun h => hna (h ▸ hi)
      simp only [this, if_false]
      exact h1 i (List.mem_cons_of_mem _ hi)
    have hrun : runSchedule s (a :: l) = runSchedule (stepCaller s a) l := by
      unfold runSchedule
      rw [List.foldl_cons]
    rw [hrun, ih hnd.of_cons (stepCaller s a) h1', hstep]
    simp [List.length_cons]
    omega

/-- C4 (amended).  There is no single-flight mechanism: each caller that
observed an invalid session performs its own heavy acquisition.  Under
the thundering-herd interleaving in which all `n` concurrent callers
validate the stale bundle before any refresh completes, exactly `n`
heavy browser acquisitions run — one per caller — instead of one. -/
theorem herd_runs_one_heavy_per_caller (n : Nat) :
    (runSchedule (initFlight n) (herdSchedule n)).heavy = n := by
  unfold herdSchedule
  have hsplit : runSchedule (initFlight n) (List.range n ++ List.range n) =
      runSchedule (runSchedule (initFlight n) (List.range n))
        (List.range n) := by
    unfold runSchedule
    rw [List.foldl_append]
  rw [hsplit]
  obtain ⟨hv, hh, hin, -⟩ :=
    runSchedule_validate_phase (List.range n) (List.nodup_range n)
      (initFlight n) rfl (fun i _ => rfl)
  have := runSchedule_refresh_phase (List.range n) (List.nodup_range n)
    (runSchedule (initFlight n) (List.range n)) hin
  rw [this, hh]
  simp [initFlight]
